import Mathlib

/-!
# Verification of the `Metaheuristic` search orchestration engine

A shallow embedding of `metaheuristic.py`: the plan "compiler"
(`process_heuristics`), the iteration controller (`run`) and the historical
tracker (`__update_historicals`), together with theorems settling the spec's
claims about them.

The external population model (`population.py`, an external collaborator per
the spec) is abstracted as a record of state transformers (`PopOps`); the set
`population.__selection__` of recognised population-level selectors is an
abstract parameter (`selection`).  Real-valued quantities (fitness values,
positions) are idealised as exact rationals; the population radius, which the
source computes with a Euclidean norm, lives in `ℝ`.
-/

/-- A parameter value of a heuristic descriptor.  The source distinguishes
only `str` values (which it wraps in single quotes) from every other value
(which it interpolates via `str(value)`); a non-string value is therefore
carried by its rendering. -/
inductive PValue where
  | pstr (s : String)
  | other (rendering : String)
deriving DecidableEq, Repr

/-- The single-quote character, `'`. -/
def squote : String := String.singleton (Char.ofNat 39)

/-- Rendering of one `parameter = value` fragment, mirroring
`"{} = '{}'".format(parameter, value)` for strings and
`"{} = {}".format(parameter, value)` otherwise (lines 93–96). -/
def renderParam : String × PValue → String
  | (name, PValue.pstr s) => name ++ " = " ++ squote ++ s ++ squote
  | (name, PValue.other r) => name ++ " = " ++ r

/-- The executable invocation string built for one heuristic
(lines 86–102).  The guard `len(parameters) >= 0` of line 86 is always true,
so the `else` branch of lines 100–102 is dead code; it is kept verbatim. -/
def operatorString (operator : String) (parameters : List (String × PValue)) : String :=
  if 0 ≤ parameters.length then
    operator ++ "(" ++ String.intercalate "," (parameters.map renderParam) ++ ")"
  else
    operator ++ "()"

/-- A heuristic descriptor `(operator, parameters, selector)` exactly as the
source consumes it in `process_heuristics`. -/
abbrev SimpleHeuristic := String × List (String × PValue) × String

/-- `Metaheuristic.process_heuristics` (lines 76–107): the loop appends each
selector to `selectors` and each synthesised invocation string to
`executable_operators`, and returns the pair of lists.  Note the function
receives no operator registry and has no failure outcome. -/
def process_heuristics (simple_heuristics : List SimpleHeuristic) :
    List String × List String :=
  simple_heuristics.foldl
    (fun acc h => (acc.1 ++ [operatorString h.1 h.2.1], acc.2 ++ [h.2.2]))
    ([], [])

/-- Modelled from the spec: the error kind `UnknownOperatorError` of §7; no
such error exists anywhere in `metaheuristic.py`. -/
inductive CompileError where
  | UnknownOperatorError
deriving DecidableEq, Repr

/-- Modelled from the spec: a `CompiledStep` of §3 — a structured record
keeping the operator name, its bound parameters and the selector tag, rather
than a synthesised source string. -/
structure CompiledStep where
  operator_name : String
  parameters : List (String × PValue)
  selector : String
deriving DecidableEq, Repr

/-- Modelled from the spec: the Plan Compiler of §4.1, which resolves each
`operator_name` against the Population Port's capability `registry` by table
lookup, fails with `UnknownOperatorError` when absent, and otherwise produces
the structured plan.  This definition follows the spec's words, for
comparison with `process_heuristics`, which is what the source does. -/
def spec_compile (registry : List String) :
    List SimpleHeuristic → Except CompileError (List CompiledStep)
  | [] => Except.ok []
  | h :: rest =>
    if h.1 ∈ registry then
      (spec_compile registry rest).map (fun plan => ⟨h.1, h.2.1, h.2.2⟩ :: plan)
    else
      Except.error CompileError.UnknownOperatorError

/-- The externally owned population state visible through the Population
Port's accessors (`positions`, per-agent `fitness`, `global_best_fitness`,
`global_best_position`); real values idealised as rationals. -/
structure PopData where
  positions : List (List ℚ)
  fitness : List ℚ
  global_best_fitness : ℚ
  global_best_position : List ℚ

/-- The population object as the engine sees it: the externally mutated data
plus the `iteration` counter, which the engine itself sets (lines 113, 132)
and the tracker reads (line 206). -/
structure Pop where
  data : PopData
  iteration : Nat

/-- The Population Port: the capabilities of the external population model
(`population.py` is an external collaborator, not part of the embedded core),
as opaque state transformers.  `apply_operator` receives the synthesised
invocation string, matching `exec("self.pop." + operator)` on line 139. -/
structure PopOps where
  initialise_uniformly : PopData → PopData
  evaluate_fitness : PopData → PopData
  apply_operator : String → PopData → PopData
  update_positions : String → String → PopData → PopData

/-- Engine state: the population handle plus the five `historical_*`
attributes initialised on lines 67–71.  `historical_centroid` is a single
D-dimensional vector: line 200 assigns it (it is never appended to). -/
structure MHState where
  pop : Pop
  historical_global_fitness : List ℚ
  historical_global_position : List (List ℚ)
  historical_centroid : List ℚ
  historical_radius : List ℝ
  historical_stagnation : List Nat

/-- `np.array(self.pop.positions).mean(0)` (line 200): the component-wise
arithmetic mean of the agent positions (assumed rectangular, as NumPy
requires). -/
def centroid (ps : List (List ℚ)) : List ℚ :=
  match ps with
  | [] => []
  | p :: _ =>
    (List.range p.length).map
      (fun j => (ps.map (fun q => q.getD j 0)).sum / (ps.length : ℚ))

/-- Squared Euclidean distance between two vectors (component-wise difference,
squared, summed). -/
def sqDist (p c : List ℚ) : ℚ :=
  ((p.zip c).map (fun t => (t.1 - t.2) ^ 2)).sum

/-- `.max()` of a NumPy array as a list maximum; the source only applies it
to the non-empty array of per-agent norms. -/
def listMaxR : List ℝ → ℝ
  | [] => 0
  | x :: xs => xs.foldl max x

/-- `np.linalg.norm(positions - np.tile(centroid, (num_agents, 1)), 2, 1).max()`
(lines 201–203): the largest Euclidean distance from an agent position to the
population centroid. -/
noncomputable def radius (ps : List (List ℚ)) : ℝ :=
  listMaxR (ps.map (fun p => Real.sqrt ((sqDist p (centroid ps) : ℚ) : ℝ)))

/-- Python negative indexing: `l[-k]` is `l[len(l) - k]` when `k ≤ len(l)`
and raises `IndexError` (modelled as `none`) otherwise. -/
def negGet (l : List α) (k : Nat) : Option α :=
  if l.length < k then none else l[l.length - k]?

/-- `Metaheuristic.__update_historicals` (lines 194–211).  Appends the
current global best fitness and position, overwrites `historical_centroid`
with the current centroid, appends the current radius, and appends the
stagnation counter: `0` unless `iteration > 0` and the last two recorded
fitness values are exactly equal, in which case the previous counter plus
one.  The Python list accesses `[-2]` and `[-1]` can raise `IndexError`;
a raising call is modelled as `none` (the exception propagates and the
mutation is discarded with the run). -/
noncomputable def update_historicals (s : MHState) : Option MHState :=
  let hgf := s.historical_global_fitness ++ [s.pop.data.global_best_fitness]
  let stagO : Option Nat :=
    if 0 < s.pop.iteration then
      match negGet hgf 2, negGet hgf 1 with
      | some prev, some curr =>
        if prev = curr then (negGet s.historical_stagnation 1).map (· + 1)
        else some 0
      | _, _ => none
    else some 0
  stagO.map (fun stag =>
    { pop := s.pop
      historical_global_fitness := hgf
      historical_global_position :=
        s.historical_global_position ++ [s.pop.data.global_best_position]
      historical_centroid := centroid s.pop.data.positions
      historical_radius := s.historical_radius ++ [radius s.pop.data.positions]
      historical_stagnation := s.historical_stagnation ++ [stag] })

/-- One observable action of the controller on its collaborators: a Population
Port call or a historical-tracker record. -/
inductive Event where
  | setIteration (k : Nat)
  | initialise
  | evalFitness
  | applyOp (code : String)
  | updatePos (level : String) (selector : String)
  | record
deriving DecidableEq, Repr

/-- Engine state paired with the trace of actions performed so far. -/
structure RunSt where
  st : MHState
  trace : List Event

/-- Perform one Population Port call: transform the population data and log
the action. -/
def callPort (e : Event) (f : PopData → PopData) (r : RunSt) : RunSt :=
  { st := { r.st with pop := { r.st.pop with data := f r.st.pop.data } }
    trace := r.trace ++ [e] }

/-- `self.pop.iteration = k` (lines 113 and 132). -/
def setIteration (k : Nat) (r : RunSt) : RunSt :=
  { st := { r.st with pop := { r.st.pop with iteration := k } }
    trace := r.trace ++ [Event.setIteration k] }

/-- A call of `self.__update_historicals()` (lines 127 and 158). -/
noncomputable def recordStep (r : RunSt) : Option RunSt :=
  (update_historicals r.st).map (fun s => { st := s, trace := r.trace ++ [Event.record] })

/-- The body of the inner loop of `run` (lines 137–155) for one
`(operator, selector)` pair: apply the operator (line 139), evaluate fitness
(line 142), apply the population-level update with the step's selector when
it belongs to `pop.__selection__` and otherwise the argument-free default
(lines 145–148, a population-level accept-all update per the line 122
comment and spec §4.2), then the global-level greedy update (line 151). -/
def doStep (ops : PopOps) (selection : List String) (r : RunSt)
    (osel : String × String) : RunSt :=
  let r1 := callPort (Event.applyOp osel.1) (ops.apply_operator osel.1) r
  let r2 := callPort Event.evalFitness ops.evaluate_fitness r1
  let r3 :=
    if osel.2 ∈ selection then
      callPort (Event.updatePos "population" osel.2)
        (ops.update_positions "population" osel.2) r2
    else
      callPort (Event.updatePos "population" "all")
        (ops.update_positions "population" "all") r2
  callPort (Event.updatePos "global" "greedy")
    (ops.update_positions "global" "greedy") r3

/-- One pass of the outer loop of `run` (lines 130–158) at iteration `k`:
set the iteration counter, execute every compiled step in declared order,
then record one history entry. -/
noncomputable def doIteration (ops : PopOps) (selection : List String)
    (operators selectors : List String) (k : Nat) (r : RunSt) : Option RunSt :=
  let r1 := setIteration k r
  let r2 := (operators.zip selectors).foldl (doStep ops selection) r1
  recordStep r2

/-- `Metaheuristic.run` (lines 111–164): bootstrap (iteration counter to 0,
uniform initialisation, fitness evaluation, the three-level initial update,
first history record), then iterations `1 .. num_iterations` inclusive. -/
noncomputable def run (ops : PopOps) (operators selectors selection : List String)
    (num_iterations : Nat) (s0 : MHState) : Option RunSt :=
  let r1 := setIteration 0 { st := s0, trace := [] }
  let r2 := callPort Event.initialise ops.initialise_uniformly r1
  let r3 := callPort Event.evalFitness ops.evaluate_fitness r2
  let r4 := callPort (Event.updatePos "population" "all")
    (ops.update_positions "population" "all") r3
  let r5 := callPort (Event.updatePos "particular" "all")
    (ops.update_positions "particular" "all") r4
  let r6 := callPort (Event.updatePos "global" "greedy")
    (ops.update_positions "global" "greedy") r5
  (recordStep r6).bind (fun r7 =>
    (List.range' 1 num_iterations).foldlM
      (fun r k => doIteration ops selection operators selectors k r) r7)

/-- The engine state built by `__init__` (lines 50–74): a fresh population
handle and the five historical attributes as empty lists. -/
def mhInit (pd : PopData) : MHState :=
  { pop := { data := pd, iteration := 0 }
    historical_global_fitness := []
    historical_global_position := []
    historical_centroid := []
    historical_radius := []
    historical_stagnation := [] }

/-- A full engine lifecycle: compile the heuristic descriptors as `__init__`
does (line 54) and run from a fresh state. -/
noncomputable def mhRun (ops : PopOps) (selection : List String)
    (simple_heuristics : List SimpleHeuristic)
    (num_iterations : Nat) (pd : PopData) : Option RunSt :=
  run ops (process_heuristics simple_heuristics).1
    (process_heuristics simple_heuristics).2 selection num_iterations
    (mhInit pd)

/-- A degenerate Population Port every capability of which replaces the
population data by the fixed `p`; used to instantiate claims at concrete
inputs. -/
def constOps (p : PopData) : PopOps :=
  { initialise_uniformly := fun _ => p
    evaluate_fitness := fun _ => p
    apply_operator := fun _ _ => p
    update_positions := fun _ _ _ => p }

/-- The four observable actions of one compiled step, in the order the claim
and the source prescribe. -/
def stepEvents (selection : List String) (osel : String × String) : List Event :=
  [Event.applyOp osel.1, Event.evalFitness,
   Event.updatePos "population" (if osel.2 ∈ selection then osel.2 else "all"),
   Event.updatePos "global" "greedy"]

/-- The observable actions of one full iteration at index `k`. -/
def iterEvents (selection : List String) (operators selectors : List String)
    (k : Nat) : List Event :=
  Event.setIteration k ::
    ((operators.zip selectors).flatMap (stepEvents selection) ++ [Event.record])

/-- The observable actions of the bootstrap phase (lines 112–127). -/
def bootstrapEvents : List Event :=
  [Event.setIteration 0, Event.initialise, Event.evalFitness,
   Event.updatePos "population" "all", Event.updatePos "particular" "all",
   Event.updatePos "global" "greedy", Event.record]

/-- Structural invariant carried across iterations: at least one history
entry already recorded (both in the fitness log and the stagnation log). -/
def HistInv (s : MHState) : Prop :=
  1 ≤ s.historical_global_fitness.length ∧ 1 ≤ s.historical_stagnation.length

/-- The stagnation recurrence of spec §3, phrased over total lookups:
the logs have equal length and every entry of index `i + 1` is the previous
counter plus one when the adjacent fitness entries are exactly equal, else
zero. -/
def StagOK (gf : List ℚ) (st : List Nat) : Prop :=
  st.length = gf.length ∧
  ∀ i,
    st[i + 1]? =
      match gf[i + 1]?, gf[i]?, st[i]? with
      | some a, some b, some c => some (if a = b then c + 1 else 0)
      | _, _, _ => none

/-- The population data produced by the bootstrap sequence of `run`
(lines 116–124): initialise, evaluate, then the three-level initial update. -/
def bootData (ops : PopOps) (pd : PopData) : PopData :=
  ops.update_positions "global" "greedy"
    (ops.update_positions "particular" "all"
      (ops.update_positions "population" "all"
        (ops.evaluate_fitness (ops.initialise_uniformly pd))))

/-- A sample population snapshot: two one-dimensional agents at positions
`2` and `4`. -/
def samplePopData : PopData :=
  { positions := [[2], [4]]
    fitness := [0, 0]
    global_best_fitness := 0
    global_best_position := [2] }

/-- A sample initial population snapshot: two one-dimensional agents at the
origin. -/
def startPopData : PopData :=
  { positions := [[0], [0]]
    fitness := [0, 0]
    global_best_fitness := 0
    global_best_position := [0] }

/-! ## Plan compiler lemmas -/

/-- `process_heuristics` is exactly string synthesis: one invocation string
and one selector per descriptor, in declared order. -/
theorem process_heuristics_eq (sh : List SimpleHeuristic) :
    process_heuristics sh =
      (sh.map (fun h => operatorString h.1 h.2.1), sh.map (fun h => h.2.2)) := by
  have aux : ∀ (l : List SimpleHeuristic) (a b : List String),
      l.foldl (fun acc h => (acc.1 ++ [operatorString h.1 h.2.1], acc.2 ++ [h.2.2]))
          (a, b)
        = (a ++ l.map (fun h => operatorString h.1 h.2.1),
           b ++ l.map (fun h => h.2.2)) := by
    intro l
    induction l with
    | nil => intro a b; simp
    | cons h t ih =>
      intro a b
      rw [List.foldl_cons, ih]
      simp
  simpa using aux sh [] []

/-! ## Radius and centroid lemmas -/

theorem le_foldl_max (xs : List ℝ) : ∀ x : ℝ, x ≤ xs.foldl max x := by
  induction xs with
  | nil => intro x; simp
  | cons y ys ih =>
    intro x
    rw [List.foldl_cons]
    exact le_trans (le_max_left x y) (ih (max x y))

theorem listMaxR_nonneg {l : List ℝ} (h : ∀ x ∈ l, 0 ≤ x) : 0 ≤ listMaxR l := by
  cases l with
  | nil => simp [listMaxR]
  | cons x xs =>
    show 0 ≤ xs.foldl max x
    exact le_trans (h x (List.mem_cons_self x xs)) (le_foldl_max xs x)

theorem foldl_max_zero {xs : List ℝ} (h : ∀ x ∈ xs, x = 0) : xs.foldl max 0 = 0 := by
  induction xs with
  | nil => rfl
  | cons y ys ih =>
    rw [List.foldl_cons, h y (List.mem_cons_self y ys), max_self]
    exact ih (fun x hx => h x (List.mem_cons_of_mem y hx))

theorem listMaxR_zero {l : List ℝ} (h : ∀ x ∈ l, x = 0) : listMaxR l = 0 := by
  cases l with
  | nil => rfl
  | cons x xs =>
    show xs.foldl max x = 0
    rw [h x (List.mem_cons_self x xs)]
    exact foldl_max_zero (fun y hy => h y (List.mem_cons_of_mem x hy))

/-- The population radius is never negative: it is a maximum of Euclidean
norms. -/
theorem radius_nonneg (ps : List (List ℚ)) : 0 ≤ radius ps := by
  unfold radius
  apply listMaxR_nonneg
  intro x hx
  obtain ⟨p, _, rfl⟩ := List.mem_map.mp hx
  exact Real.sqrt_nonneg _

theorem map_getD_range (v : List ℚ) :
    (List.range v.length).map (fun j => v.getD j 0) = v := by
  induction v with
  | nil => simp
  | cons a t ih =>
    rw [List.length_cons, List.range_succ_eq_map, List.map_cons]
    have hcomp : ((fun j => (a :: t).getD j 0) ∘ Nat.succ) = fun j => t.getD j 0 := by
      funext j
      simp [List.getD_cons_succ]
    rw [List.getD_cons_zero, List.map_map, hcomp, ih]

theorem centroid_const {ps : List (List ℚ)} {v : List ℚ}
    (hne : ps ≠ []) (hall : ∀ p ∈ ps, p = v) : centroid ps = v := by
  obtain ⟨p, rest, rfl⟩ := List.exists_cons_of_ne_nil hne
  have hp : p = v := hall p (List.mem_cons_self p rest)
  have hlen : ((p :: rest).length : ℚ) ≠ 0 := by
    exact_mod_cast Nat.cast_ne_zero.mpr (by simp)
  have hcol : (fun j => (((p :: rest).map (fun q => q.getD j 0)).sum /
      ((p :: rest).length : ℚ))) = fun j => v.getD j 0 := by
    funext j
    have hrep : (p :: rest).map (fun q => q.getD j 0)
        = List.replicate (p :: rest).length (v.getD j 0) := by
      refine List.eq_replicate_iff.mpr ⟨by simp, ?_⟩
      intro b hb
      obtain ⟨q, hq, rfl⟩ := List.mem_map.mp hb
      rw [hall q hq]
    rw [hrep, List.sum_replicate, nsmul_eq_mul]
    exact mul_div_cancel_left₀ _ hlen
  show (List.range p.length).map
      (fun j => ((p :: rest).map (fun q => q.getD j 0)).sum /
        ((p :: rest).length : ℚ)) = v
  rw [hcol, hp, map_getD_range]

theorem sqDist_self (v : List ℚ) : sqDist v v = 0 := by
  induction v with
  | nil => rfl
  | cons a t ih =>
    unfold sqDist at ih ⊢
    rw [List.zip_cons_cons, List.map_cons, List.sum_cons, ih, sub_self]
    ring

/-- If every agent occupies the identical position, the radius is zero. -/
theorem radius_const_zero {ps : List (List ℚ)} {v : List ℚ}
    (hall : ∀ p ∈ ps, p = v) : radius ps = 0 := by
  cases hps : ps with
  | nil => simp [radius, listMaxR]
  | cons p rest =>
    subst hps
    have hc : centroid (p :: rest) = v := centroid_const (by simp) hall
    unfold radius
    apply listMaxR_zero
    intro x hx
    obtain ⟨q, hq, rfl⟩ := List.mem_map.mp hx
    rw [hall q hq, hc, sqDist_self]
    simp

/-! ## Negative indexing lemmas -/

theorem negGet_one (l : List α) : negGet l 1 = l.getLast? := by
  unfold negGet
  cases l with
  | nil => simp
  | cons a t =>
    rw [if_neg (by simp), ← List.getLast?_eq_getElem?]

theorem negGet_concat_one (l : List α) (x : α) : negGet (l ++ [x]) 1 = some x := by
  rw [negGet_one, List.getLast?_concat]

theorem negGet_concat_two (l : List α) (x : α) :
    negGet (l ++ [x]) 2 = l.getLast? := by
  unfold negGet
  by_cases h : l = []
  · subst h; simp
  · have hlen : 1 ≤ l.length := List.length_pos.mpr h
    rw [if_neg (by simp only [List.length_append, List.length_cons,
      List.length_nil]; omega)]
    have hidx : (l ++ [x]).length - 2 = l.length - 1 := by
      simp only [List.length_append, List.length_cons, List.length_nil]
      omega
    rw [hidx, List.getElem?_append, if_pos (by omega), List.getLast?_eq_getElem?]

/-! ## Historical tracker lemmas -/

/-- `__update_historicals` on the bootstrap call (`iteration == 0`): the
guard short-circuits, the stagnation entry is `0` and the call succeeds. -/
theorem update_historicals_zero {s : MHState} (h : s.pop.iteration = 0) :
    update_historicals s = some
      { pop := s.pop
        historical_global_fitness :=
          s.historical_global_fitness ++ [s.pop.data.global_best_fitness]
        historical_global_position :=
          s.historical_global_position ++ [s.pop.data.global_best_position]
        historical_centroid := centroid s.pop.data.positions
        historical_radius := s.historical_radius ++ [radius s.pop.data.positions]
        historical_stagnation := s.historical_stagnation ++ [0] } := by
  unfold update_historicals
  rw [h]
  simp

/-- `__update_historicals` on a later call (`iteration > 0`) with a non-empty
history: the `[-2]` access hits the previously recorded fitness and the call
succeeds, appending the stagnation counter prescribed by the recurrence. -/
theorem update_historicals_pos {s : MHState} {a : ℚ} {c : Nat}
    (hit : 0 < s.pop.iteration)
    (ha : s.historical_global_fitness.getLast? = some a)
    (hc : s.historical_stagnation.getLast? = some c) :
    update_historicals s = some
      { pop := s.pop
        historical_global_fitness :=
          s.historical_global_fitness ++ [s.pop.data.global_best_fitness]
        historical_global_position :=
          s.historical_global_position ++ [s.pop.data.global_best_position]
        historical_centroid := centroid s.pop.data.positions
        historical_radius := s.historical_radius ++ [radius s.pop.data.positions]
        historical_stagnation := s.historical_stagnation ++
          [if a = s.pop.data.global_best_fitness then c + 1 else 0] } := by
  show (Option.map (fun stag =>
      { pop := s.pop
        historical_global_fitness :=
          s.historical_global_fitness ++ [s.pop.data.global_best_fitness]
        historical_global_position :=
          s.historical_global_position ++ [s.pop.data.global_best_position]
        historical_centroid := centroid s.pop.data.positions
        historical_radius := s.historical_radius ++ [radius s.pop.data.positions]
        historical_stagnation := s.historical_stagnation ++ [stag] } : Nat → MHState)
      (if 0 < s.pop.iteration then
        match negGet (s.historical_global_fitness ++ [s.pop.data.global_best_fitness]) 2,
          negGet (s.historical_global_fitness ++ [s.pop.data.global_best_fitness]) 1 with
        | some prev, some curr =>
          if prev = curr then (negGet s.historical_stagnation 1).map (· + 1)
          else some 0
        | _, _ => none
      else some 0)) = _
  rw [if_pos hit, negGet_concat_two, negGet_concat_one, ha, negGet_one, hc]
  by_cases he : a = s.pop.data.global_best_fitness
  · rw [if_pos he]
    simp [he]
  · rw [if_neg he]
    simp [he]

/-! ## Stagnation recurrence lemmas -/

theorem stagOK_singleton (f : ℚ) : StagOK [f] [0] := by
  constructor
  · rfl
  · intro i
    have h1 : ([0] : List Nat)[i + 1]? = none := List.getElem?_eq_none (by simp)
    have h2 : ([f] : List ℚ)[i + 1]? = none := List.getElem?_eq_none (by simp)
    rw [h1, h2]

theorem stagOK_append {gf : List ℚ} {st : List Nat} {a : ℚ} {c : Nat}
    (hok : StagOK gf st) (ha : gf.getLast? = some a) (hc : st.getLast? = some c)
    (f : ℚ) :
    StagOK (gf ++ [f]) (st ++ [if a = f then c + 1 else 0]) := by
  obtain ⟨hlen, hrec⟩ := hok
  have hgfne : gf ≠ [] := by
    intro h
    rw [h] at ha
    simp at ha
  have hpos : 1 ≤ gf.length := List.length_pos.mpr hgfne
  refine ⟨by simp [hlen], ?_⟩
  intro i
  rcases lt_trichotomy (i + 1) gf.length with hlt | heq | hgt
  · have e1 : (gf ++ [f])[i + 1]? = gf[i + 1]? := by
      rw [List.getElem?_append]; exact if_pos hlt
    have e2 : (gf ++ [f])[i]? = gf[i]? := by
      rw [List.getElem?_append]; exact if_pos (by omega)
    have e3 : (st ++ [if a = f then c + 1 else 0])[i + 1]? = st[i + 1]? := by
      rw [List.getElem?_append]; exact if_pos (by omega)
    have e4 : (st ++ [if a = f then c + 1 else 0])[i]? = st[i]? := by
      rw [List.getElem?_append]; exact if_pos (by omega)
    rw [e1, e2, e3, e4]
    exact hrec i
  · have e1 : (gf ++ [f])[i + 1]? = some f := by
      rw [heq, List.getElem?_concat_length]
    have e2 : (gf ++ [f])[i]? = some a := by
      rw [List.getElem?_append, if_pos (by omega)]
      have hi : i = gf.length - 1 := by omega
      rw [hi, ← List.getLast?_eq_getElem?]
      exact ha
    have e3 : (st ++ [if a = f then c + 1 else 0])[i + 1]? =
        some (if a = f then c + 1 else 0) := by
      have : i + 1 = st.length := by omega
      rw [this, List.getElem?_concat_length]
    have e4 : (st ++ [if a = f then c + 1 else 0])[i]? = some c := by
      rw [List.getElem?_append, if_pos (by omega)]
      have hi : i = st.length - 1 := by omega
      rw [hi, ← List.getLast?_eq_getElem?]
      exact hc
    rw [e1, e2, e3, e4]
    show some (if a = f then c + 1 else 0) = some (if f = a then c + 1 else 0)
    by_cases he : a = f
    · rw [if_pos he, if_pos he.symm]
    · rw [if_neg he, if_neg (fun hfa => he hfa.symm)]
  · have e1 : (gf ++ [f])[i + 1]? = none := List.getElem?_eq_none (by simp; omega)
    have e3 : (st ++ [if a = f then c + 1 else 0])[i + 1]? = none :=
      List.getElem?_eq_none (by simp; omega)
    rw [e1, e3]

/-! ## Step and iteration structure lemmas -/

/-- A step changes only the population data (and the trace): the engine
state's histories and the iteration counter survive untouched. -/
theorem doStep_st (ops : PopOps) (selection : List String) (r : RunSt)
    (osel : String × String) :
    ∃ d, (doStep ops selection r osel).st =
      { r.st with pop := { r.st.pop with data := d } } := by
  by_cases h : osel.2 ∈ selection
  · refine ⟨ops.update_positions "global" "greedy"
      (ops.update_positions "population" osel.2
        (ops.evaluate_fitness (ops.apply_operator osel.1 r.st.pop.data))), ?_⟩
    simp [doStep, callPort, h]
  · refine ⟨ops.update_positions "global" "greedy"
      (ops.update_positions "population" "all"
        (ops.evaluate_fitness (ops.apply_operator osel.1 r.st.pop.data))), ?_⟩
    simp [doStep, callPort, h]

/-- The observable actions of one step, in source order: operator, fitness
evaluation, population-level update (the step's selector when recognised,
the accept-all default otherwise), global-level greedy update. -/
theorem doStep_trace (ops : PopOps) (selection : List String) (r : RunSt)
    (osel : String × String) :
    (doStep ops selection r osel).trace = r.trace ++ stepEvents selection osel := by
  by_cases h : osel.2 ∈ selection
  · simp [doStep, callPort, stepEvents, h]
  · simp [doStep, callPort, stepEvents, h]

theorem foldl_doStep_st (ops : PopOps) (selection : List String) :
    ∀ (l : List (String × String)) (r : RunSt),
      ∃ d, (l.foldl (doStep ops selection) r).st =
        { r.st with pop := { r.st.pop with data := d } } := by
  intro l
  induction l with
  | nil => intro r; exact ⟨r.st.pop.data, rfl⟩
  | cons x t ih =>
    intro r
    obtain ⟨d, hd⟩ := ih (doStep ops selection r x)
    obtain ⟨d0, hd0⟩ := doStep_st ops selection r x
    refine ⟨d, ?_⟩
    rw [List.foldl_cons, hd, hd0]

theorem foldl_doStep_trace (ops : PopOps) (selection : List String) :
    ∀ (l : List (String × String)) (r : RunSt),
      (l.foldl (doStep ops selection) r).trace =
        r.trace ++ l.flatMap (stepEvents selection) := by
  intro l
  induction l with
  | nil => intro r; simp
  | cons x t ih =>
    intro r
    rw [List.foldl_cons, ih, doStep_trace, List.flatMap_cons, List.append_assoc]

/-- One full iteration at index `k ≥ 1` from a state with at least one
recorded history entry: it succeeds, appends exactly one entry to each of the
four historical sequences (a non-negative one to the radius log, the
recurrence value to the stagnation log), emits the iteration's events, and
leaves the centroid field equal to the centroid of the current positions. -/
theorem doIteration_spec (ops : PopOps) (selection : List String)
    (operators selectors : List String) {k : Nat} (hk : 1 ≤ k) (r : RunSt)
    (hInv : HistInv r.st)
    (hStag : StagOK r.st.historical_global_fitness r.st.historical_stagnation) :
    ∃ r' gfv gpv rdv stv,
      doIteration ops selection operators selectors k r = some r' ∧
      r'.st.historical_global_fitness = r.st.historical_global_fitness ++ [gfv] ∧
      r'.st.historical_global_position = r.st.historical_global_position ++ [gpv] ∧
      r'.st.historical_radius = r.st.historical_radius ++ [rdv] ∧ (0:ℝ) ≤ rdv ∧
      r'.st.historical_stagnation = r.st.historical_stagnation ++ [stv] ∧
      StagOK r'.st.historical_global_fitness r'.st.historical_stagnation ∧
      r'.trace = r.trace ++ iterEvents selection operators selectors k ∧
      r'.st.historical_centroid = centroid r'.st.pop.data.positions := by
  have hgfne : r.st.historical_global_fitness ≠ [] := by
    intro h
    have h1 := hInv.1
    rw [h] at h1
    simp at h1
  have hstne : r.st.historical_stagnation ≠ [] := by
    intro h
    have h1 := hInv.2
    rw [h] at h1
    simp at h1
  obtain ⟨a, ha⟩ : ∃ x, r.st.historical_global_fitness.getLast? = some x := by
    cases hgl : r.st.historical_global_fitness.getLast? with
    | none => exact absurd (List.getLast?_eq_none_iff.mp hgl) hgfne
    | some x => exact ⟨x, rfl⟩
  obtain ⟨c, hc⟩ : ∃ x, r.st.historical_stagnation.getLast? = some x := by
    cases hgl : r.st.historical_stagnation.getLast? with
    | none => exact absurd (List.getLast?_eq_none_iff.mp hgl) hstne
    | some x => exact ⟨x, rfl⟩
  set r2 := (operators.zip selectors).foldl (doStep ops selection) (setIteration k r)
    with hr2
  obtain ⟨d, hd⟩ := foldl_doStep_st ops selection (operators.zip selectors)
    (setIteration k r)
  rw [← hr2] at hd
  have hd' : r2.st = { r.st with pop := { data := d, iteration := k } } := by
    rw [hd]; rfl
  have htr : r2.trace = (r.trace ++ [Event.setIteration k]) ++
      (operators.zip selectors).flatMap (stepEvents selection) := by
    rw [hr2, foldl_doStep_trace]; rfl
  have hit : 0 < r2.st.pop.iteration := by rw [hd']; exact hk
  have haf : r2.st.historical_global_fitness.getLast? = some a := by
    rw [hd']; exact ha
  have hcf : r2.st.historical_stagnation.getLast? = some c := by
    rw [hd']; exact hc
  have hupd := update_historicals_pos hit haf hcf
  have hdo : doIteration ops selection operators selectors k r = recordStep r2 := rfl
  rw [recordStep, hupd, Option.map_some'] at hdo
  refine ⟨_, r2.st.pop.data.global_best_fitness, r2.st.pop.data.global_best_position,
    radius r2.st.pop.data.positions,
    (if a = r2.st.pop.data.global_best_fitness then c + 1 else 0),
    hdo, ?_, ?_, ?_, radius_nonneg _, ?_, ?_, ?_, ?_⟩
  · show r2.st.historical_global_fitness ++ [r2.st.pop.data.global_best_fitness] = _
    rw [hd']
  · show r2.st.historical_global_position ++ [r2.st.pop.data.global_best_position] = _
    rw [hd']
  · show r2.st.historical_radius ++ [radius r2.st.pop.data.positions] = _
    rw [hd']
  · show r2.st.historical_stagnation ++ [_] = _
    rw [hd']
  · show StagOK (r2.st.historical_global_fitness ++ [r2.st.pop.data.global_best_fitness])
      (r2.st.historical_stagnation ++
        [if a = r2.st.pop.data.global_best_fitness then c + 1 else 0])
    rw [hd']
    exact stagOK_append hStag ha hc _
  · show r2.trace ++ [Event.record] = _
    rw [htr, iterEvents]
    simp
  · show centroid r2.st.pop.data.positions = centroid r2.st.pop.data.positions
    rfl

/-- Folding the iteration body over any list of indices `≥ 1` from a state
with at least one recorded entry: the fold succeeds and the history
invariants are carried through, with one appended entry per index. -/
theorem foldIter_spec (ops : PopOps) (selection : List String)
    (operators selectors : List String) :
    ∀ (ks : List Nat), (∀ k ∈ ks, 1 ≤ k) → ∀ (r : RunSt),
      HistInv r.st →
      StagOK r.st.historical_global_fitness r.st.historical_stagnation →
      r.st.historical_stagnation[0]? = some 0 →
      (∀ x ∈ r.st.historical_radius, (0:ℝ) ≤ x) →
      r.st.historical_centroid = centroid r.st.pop.data.positions →
      ∃ r', ks.foldlM (fun r k => doIteration ops selection operators selectors k r) r
          = some r' ∧
        r'.st.historical_global_fitness.length
          = r.st.historical_global_fitness.length + ks.length ∧
        r'.st.historical_global_position.length
          = r.st.historical_global_position.length + ks.length ∧
        r'.st.historical_radius.length = r.st.historical_radius.length + ks.length ∧
        r'.st.historical_stagnation.length
          = r.st.historical_stagnation.length + ks.length ∧
        StagOK r'.st.historical_global_fitness r'.st.historical_stagnation ∧
        r'.st.historical_stagnation[0]? = some 0 ∧
        (∀ x ∈ r'.st.historical_radius, (0:ℝ) ≤ x) ∧
        r'.st.historical_centroid = centroid r'.st.pop.data.positions ∧
        r'.trace = r.trace ++ ks.flatMap (iterEvents selection operators selectors) := by
  intro ks
  induction ks with
  | nil =>
    intro _ r hInv hStag hst0 hrad hcen
    exact ⟨r, rfl, by simp, by simp, by simp, by simp, hStag, hst0, hrad, hcen, by simp⟩
  | cons k ks ih =>
    intro hks r hInv hStag hst0 hrad hcen
    have hk : 1 ≤ k := hks k (List.mem_cons_self k ks)
    obtain ⟨r1, gfv, gpv, rdv, stv, hstep, hgf, hgp, hrd, hrdpos, hstg, hStag1, htr, hcen1⟩ :=
      doIteration_spec ops selection operators selectors hk r hInv hStag
    have hInv1 : HistInv r1.st := by
      constructor
      · rw [hgf]; simp
      · rw [hstg]; simp
    have hst01 : r1.st.historical_stagnation[0]? = some 0 := by
      rw [hstg, List.getElem?_append, if_pos (by have := hInv.2; omega)]
      exact hst0
    have hrad1 : ∀ x ∈ r1.st.historical_radius, (0:ℝ) ≤ x := by
      rw [hrd]
      intro x hx
      rcases List.mem_append.mp hx with hmem | hmem
      · exact hrad x hmem
      · rw [List.mem_singleton.mp hmem]
        exact hrdpos
    obtain ⟨r', hfold, h1, h2, h3, h4, h5, h6, h7, h8, h9⟩ :=
      ih (fun j hj => hks j (List.mem_cons_of_mem k hj)) r1 hInv1 hStag1 hst01 hrad1 hcen1
    refine ⟨r', ?_, ?_, ?_, ?_, ?_, h5, h6, h7, h8, ?_⟩
    · rw [List.foldlM_cons, hstep]
      exact hfold
    · rw [h1, hgf]; simp; omega
    · rw [h2, hgp]; simp; omega
    · rw [h3, hrd]; simp; omega
    · rw [h4, hstg]; simp; omega
    · rw [h9, htr, List.flatMap_cons, List.append_assoc]

/-- `run` reduces to the iteration fold started from the bootstrapped state:
the bootstrap record (`iteration == 0`) always succeeds and records
`[fitness]`, `[position]`, `[radius]`, `[0]` plus the current centroid. -/
theorem run_eq_fold (ops : PopOps) (operators selectors selection : List String)
    (T : Nat) (pd : PopData) :
    run ops operators selectors selection T (mhInit pd) =
      (List.range' 1 T).foldlM
        (fun r k => doIteration ops selection operators selectors k r)
        { st := { pop := { data := bootData ops pd, iteration := 0 }
                  historical_global_fitness := [(bootData ops pd).global_best_fitness]
                  historical_global_position := [(bootData ops pd).global_best_position]
                  historical_centroid := centroid (bootData ops pd).positions
                  historical_radius := [radius (bootData ops pd).positions]
                  historical_stagnation := [0] }
          trace := bootstrapEvents } := rfl

/-- Master theorem for a complete run from a freshly initialised engine:
the run never fails, emits the bootstrap events followed by the per-iteration
events, leaves all four historical sequences at length `T + 1`, satisfies
the stagnation recurrence with `stagnation[0] = 0`, keeps every recorded
radius non-negative, and leaves the centroid field equal to the centroid of
the final population positions. -/
theorem run_spec (ops : PopOps) (operators selectors selection : List String)
    (T : Nat) (pd : PopData) :
    ∃ r', run ops operators selectors selection T (mhInit pd) = some r' ∧
      r'.trace = bootstrapEvents ++
        (List.range' 1 T).flatMap (iterEvents selection operators selectors) ∧
      r'.st.historical_global_fitness.length = T + 1 ∧
      r'.st.historical_global_position.length = T + 1 ∧
      r'.st.historical_radius.length = T + 1 ∧
      r'.st.historical_stagnation.length = T + 1 ∧
      StagOK r'.st.historical_global_fitness r'.st.historical_stagnation ∧
      r'.st.historical_stagnation[0]? = some 0 ∧
      (∀ x ∈ r'.st.historical_radius, (0:ℝ) ≤ x) ∧
      r'.st.historical_centroid = centroid r'.st.pop.data.positions := by
  rw [run_eq_fold]
  obtain ⟨r', hfold, h1, h2, h3, h4, h5, h6, h7, h8, h9⟩ :=
    foldIter_spec ops selection operators selectors (List.range' 1 T)
      (by
        intro k hk
        rw [List.mem_range'] at hk
        obtain ⟨i, _, rfl⟩ := hk
        omega)
      { st := { pop := { data := bootData ops pd, iteration := 0 }
                historical_global_fitness := [(bootData ops pd).global_best_fitness]
                historical_global_position := [(bootData ops pd).global_best_position]
                historical_centroid := centroid (bootData ops pd).positions
                historical_radius := [radius (bootData ops pd).positions]
                historical_stagnation := [0] }
        trace := bootstrapEvents }
      ⟨by simp, by simp⟩
      (stagOK_singleton _)
      rfl
      (by
        intro x hx
        rw [List.mem_singleton.mp hx]
        exact radius_nonneg _)
      rfl
  refine ⟨r', hfold, ?_, ?_, ?_, ?_, ?_, h5, h6, h7, h8⟩
  · exact h9
  · rw [h1]; simp [List.length_range']; omega
  · rw [h2]; simp [List.length_range']; omega
  · rw [h3]; simp [List.length_range']; omega
  · rw [h4]; simp [List.length_range']; omega

/-- A record call never touches the population handle. -/
theorem update_historicals_pop {s s' : MHState}
    (h : update_historicals s = some s') : s'.pop = s.pop := by
  obtain ⟨stag, _, rfl⟩ := Option.map_eq_some'.mp h
  rfl

theorem doStep_const_data (p : PopData) (selection : List String) (r : RunSt)
    (osel : String × String) :
    (doStep (constOps p) selection r osel).st.pop.data = p := by
  by_cases h : osel.2 ∈ selection <;> simp [doStep, callPort, constOps, h]

theorem foldl_doStep_const_data (p : PopData) (selection : List String) :
    ∀ (l : List (String × String)) (r : RunSt), r.st.pop.data = p →
      (l.foldl (doStep (constOps p) selection) r).st.pop.data = p := by
  intro l
  induction l with
  | nil => intro r hr; exact hr
  | cons x t ih =>
    intro r _
    rw [List.foldl_cons]
    exact ih _ (doStep_const_data p selection r x)

theorem foldIter_const_data (p : PopData) (selection : List String)
    (operators selectors : List String) :
    ∀ (ks : List Nat) (r r' : RunSt), r.st.pop.data = p →
      ks.foldlM
          (fun r k => doIteration (constOps p) selection operators selectors k r) r
        = some r' →
      r'.st.pop.data = p := by
  intro ks
  induction ks with
  | nil =>
    intro r r' hr h
    rw [List.foldlM_nil] at h
    cases h
    exact hr
  | cons k t ih =>
    intro r r' hr h
    rw [List.foldlM_cons] at h
    cases hstep : doIteration (constOps p) selection operators selectors k r with
    | none => rw [hstep] at h; simp at h
    | some r1 =>
      rw [hstep] at h
      have h2 : recordStep ((operators.zip selectors).foldl
          (doStep (constOps p) selection) (setIteration k r)) = some r1 := hstep
      obtain ⟨s, hs, heq⟩ := Option.map_eq_some'.mp h2
      have hpop := update_historicals_pop hs
      have hdata : ((operators.zip selectors).foldl (doStep (constOps p) selection)
          (setIteration k r)).st.pop.data = p :=
        foldl_doStep_const_data p selection _ _ hr
      have hr1 : r1.st.pop.data = p := by
        rw [← heq]
        show s.pop.data = p
        rw [hpop]
        exact hdata
      exact ih r1 r' hr1 h

/-- Under the constant Population Port, a completed run leaves the population
data equal to the constant. -/
theorem run_const_data (p : PopData) (selection operators selectors : List String)
    (T : Nat) (pd : PopData) {r' : RunSt}
    (h : run (constOps p) operators selectors selection T (mhInit pd) = some r') :
    r'.st.pop.data = p := by
  rw [run_eq_fold] at h
  exact foldIter_const_data p selection operators selectors (List.range' 1 T) _ r' rfl h

theorem getD_nonneg {l : List ℝ} (h : ∀ x ∈ l, (0:ℝ) ≤ x) (i : Nat) :
    0 ≤ l.getD i 0 := by
  rw [List.getD_eq_getElem?_getD]
  cases hg : l[i]? with
  | none => simp
  | some x => simpa using h x (List.getElem?_mem hg)

/-! ## Claim theorems -/

/-- **C1.**  For every run and every iteration `k` from 1 to
`num_iterations`, the controller executes each compiled step of the plan in
declared order and, within a step, applies the operator, then re-evaluates
fitness for all agents, then applies the population-level update, then a
global-level update with the `greedy` selector — strictly in that sequence —
so a global greedy update follows every step regardless of the step's own
selector.  Stated over the observable trace: a complete run emits exactly the
bootstrap events followed, for `k = 1, …, T` in order, by that iteration's
events; `iterEvents` is the concatenation of the compiled steps' event
quadruples in plan order (see `stepEvents`) followed by the history record. -/
theorem claim_C1_step_ordering (ops : PopOps) (selection : List String)
    (sh : List SimpleHeuristic) (T : Nat) (pd : PopData) :
    (mhRun ops selection sh T pd).map RunSt.trace =
      some (bootstrapEvents ++
        (List.range' 1 T).flatMap
          (iterEvents selection (process_heuristics sh).1
            (process_heuristics sh).2)) := by
  obtain ⟨r', hrun, htrace, _⟩ := run_spec ops (process_heuristics sh).1
    (process_heuristics sh).2 selection T pd
  unfold mhRun
  rw [hrun, Option.map_some', htrace]

/-- **C2.**  After a complete run with `num_iterations = T`, the historical
sequences `global_fitness`, `global_position`, `radius` and `stagnation`
each have length exactly `T + 1`: one bootstrap entry plus one entry per
completed iteration. -/
theorem claim_C2_history_lengths (ops : PopOps) (selection : List String)
    (sh : List SimpleHeuristic) (T : Nat) (pd : PopData) :
    (mhRun ops selection sh T pd).map
        (fun r => (r.st.historical_global_fitness.length,
          r.st.historical_global_position.length,
          r.st.historical_radius.length,
          r.st.historical_stagnation.length)) =
      some (T + 1, T + 1, T + 1, T + 1) := by
  obtain ⟨r', hrun, _, h1, h2, h3, h4, _⟩ := run_spec ops (process_heuristics sh).1
    (process_heuristics sh).2 selection T pd
  unfold mhRun
  rw [hrun, Option.map_some', h1, h2, h3, h4]

/-- **C3.**  For every run, `stagnation[0] = 0`, and for every `i ≥ 1`,
`stagnation[i] = stagnation[i-1] + 1` when `global_fitness[i]` is exactly
equal to `global_fitness[i-1]`, and `stagnation[i] = 0` otherwise (stated
with total lookups: an index is in range on one side exactly when it is on
the other). -/
theorem claim_C3_stagnation_recurrence (ops : PopOps) (selection : List String)
    (sh : List SimpleHeuristic) (T : Nat) (pd : PopData) :
    (mhRun ops selection sh T pd).elim False (fun r =>
      r.st.historical_stagnation[0]? = some 0 ∧
      ∀ i, r.st.historical_stagnation[i + 1]? =
        match r.st.historical_global_fitness[i + 1]?,
          r.st.historical_global_fitness[i]?, r.st.historical_stagnation[i]? with
        | some a, some b, some c => some (if a = b then c + 1 else 0)
        | _, _, _ => none) := by
  obtain ⟨r', hrun, _, _, _, _, _, hStag, hst0, _⟩ :=
    run_spec ops (process_heuristics sh).1 (process_heuristics sh).2 selection T pd
  unfold mhRun
  rw [hrun]
  exact ⟨hst0, hStag.2⟩

/-- **C4 (counterexample).**  The claim says compiling a descriptor list
containing an operator name absent from the registry raises
`UnknownOperatorError` at compile time and produces no plan.  The code's
compiler, `process_heuristics`, consults no registry and cannot fail: on a
descriptor whose operator is absent from the registry (here the registry is
empty, so any name is absent; the spec-modelled compiler `spec_compile`
faithfully errors) it still produces the complete one-step plan. -/
theorem claim_C4_counterexample :
    spec_compile [] [("unknown_op", [], "greedy")] =
        Except.error CompileError.UnknownOperatorError ∧
      process_heuristics [("unknown_op", [], "greedy")] =
        (["unknown_op()"], ["greedy"]) := by
  constructor
  · rfl
  · rfl

/-- **C4 (amended).**  Plan compilation performs no operator-name validation
and can never fail: every descriptor list compiles to a full plan with
exactly one invocation string and one selector per descriptor, regardless of
any registry; an unknown operator can only fail later, at run time, when its
invocation string is evaluated against the population object. -/
theorem claim_C4_amended_no_rejection (sh : List SimpleHeuristic) :
    (process_heuristics sh).1.length = sh.length ∧
      (process_heuristics sh).2.length = sh.length := by
  rw [process_heuristics_eq]
  constructor
  · exact List.length_map sh _
  · exact List.length_map sh _

/-- **C5 (counterexample).**  The claim says operator invocation is resolved
by table lookup against a capability registry, yielding a bound callable with
parameters pre-attached, and that no invocation happens via evaluation of
source-text strings.  In the code, the compiled "plan" is a list of
synthesised source-text strings (evaluated by `exec` at each step), and the
synthesis is lossy: two different descriptors — one with a single string
parameter whose value contains quote characters, one with two parameters —
compile to the identical plan, which no parameter-pre-attached bound-callable
representation could do (the spec-modelled structured compiler
`spec_compile` keeps them distinct). -/
theorem claim_C5_counterexample :
    process_heuristics
        [("two_swap", [("p", PValue.pstr ("a" ++ squote ++ ",q = " ++ squote ++ "b"))],
          "greedy")] =
      process_heuristics
        [("two_swap", [("p", PValue.pstr "a"), ("q", PValue.pstr "b")], "greedy")] ∧
    (("two_swap", [("p", PValue.pstr ("a" ++ squote ++ ",q = " ++ squote ++ "b"))],
        "greedy") : SimpleHeuristic) ≠
      ("two_swap", [("p", PValue.pstr "a"), ("q", PValue.pstr "b")], "greedy") ∧
    (spec_compile ["two_swap"]
        [("two_swap", [("p", PValue.pstr ("a" ++ squote ++ ",q = " ++ squote ++ "b"))],
          "greedy")]).toOption ≠
      (spec_compile ["two_swap"]
        [("two_swap", [("p", PValue.pstr "a"), ("q", PValue.pstr "b")], "greedy")]).toOption := by
  refine ⟨by decide, by decide, by decide⟩

/-- **C5 (amended).**  Operator invocation is prepared by synthesising, at
compile time, one source-text invocation string per descriptor — the operator
name followed by the comma-joined `parameter = value` renderings — paired
with the descriptor's selector; the controller later evaluates these strings
against the population object (see the `Event.applyOp` payloads of
`claim_C1_step_ordering`).  No registry lookup and no parameter
pre-attachment occurs. -/
theorem claim_C5_amended_string_synthesis (sh : List SimpleHeuristic) :
    process_heuristics sh =
      (sh.map (fun h => operatorString h.1 h.2.1), sh.map (fun h => h.2.2)) :=
  process_heuristics_eq sh

/-- **C6 (counterexample).**  The claim says the centroid historical sequence
has length `T + 1` after a run with `num_iterations = T`.  With `T = 2` and a
population of two one-dimensional agents, the centroid field after the run
holds a single one-dimensional vector — length `1`, not `T + 1 = 3`: the
field is overwritten at every record and no per-iteration centroid history
exists. -/
theorem claim_C6_counterexample :
    (mhRun (constOps samplePopData)
      ["greedy"] [("swarm_dynamic", [], "greedy")] 2 startPopData).map
        (fun r => r.st.historical_centroid.length) = some 1 ∧ 1 ≠ 2 + 1 := by
  constructor
  · obtain ⟨r', hrun, _, _, _, _, _, _, _, _, hcen⟩ :=
      run_spec (constOps samplePopData)
        (process_heuristics [("swarm_dynamic", [], "greedy")]).1
        (process_heuristics [("swarm_dynamic", [], "greedy")]).2
        ["greedy"] 2 startPopData
    have hdata := run_const_data _ _ _ _ _ _ hrun
    unfold mhRun
    rw [hrun, Option.map_some', hcen, hdata]
    rfl
  · decide

/-- **C6 (amended).**  Only `global_fitness`, `global_position`, `radius` and
`stagnation` are per-iteration sequences of length `T + 1`
(`claim_C2_history_lengths`); the centroid field is not a history: after
every record — and hence after a complete run — it holds the single
D-dimensional centroid of the population's current positions, each record
overwriting the previous value. -/
theorem claim_C6_amended_centroid_current (ops : PopOps) (selection : List String)
    (sh : List SimpleHeuristic) (T : Nat) (pd : PopData) :
    (mhRun ops selection sh T pd).elim False (fun r =>
      r.st.historical_centroid = centroid r.st.pop.data.positions) := by
  obtain ⟨r', hrun, _, _, _, _, _, _, _, _, hcen⟩ :=
    run_spec ops (process_heuristics sh).1 (process_heuristics sh).2 selection T pd
  unfold mhRun
  rw [hrun]
  exact hcen

/-- **C7.**  For every step executed during an iteration, a population-level
update always occurs: with the step's selector when that selector is among
the recognised population-level selection strategies, and with the
accept-all default otherwise — the selector is never silently dropped, and
the update is always at the `population` level. -/
theorem claim_C7_population_update_each_step (ops : PopOps)
    (selection : List String) (r : RunSt) (op sel : String) :
    (doStep ops selection r (op, sel)).trace = r.trace ++
      [Event.applyOp op, Event.evalFitness,
       Event.updatePos "population" (if sel ∈ selection then sel else "all"),
       Event.updatePos "global" "greedy"] := by
  rw [doStep_trace]
  rfl

/-- **C8.**  Every successful record call is purely additive on the four
historical sequences — each previously recorded entry is preserved, with
exactly one new entry appended to each — and never mutates the population
state (positions, fitness values, global best, iteration counter all
unchanged). -/
theorem claim_C8_record_append_only (s : MHState) :
    (update_historicals s).elim True (fun s' =>
      s'.pop = s.pop ∧
      s'.historical_global_fitness =
        s.historical_global_fitness ++ [s.pop.data.global_best_fitness] ∧
      s'.historical_global_position =
        s.historical_global_position ++ [s.pop.data.global_best_position] ∧
      s'.historical_radius = s.historical_radius ++ [radius s.pop.data.positions] ∧
      ∃ n, s'.historical_stagnation = s.historical_stagnation ++ [n]) := by
  cases h : update_historicals s with
  | none => exact trivial
  | some s' =>
    obtain ⟨stag, _, rfl⟩ := Option.map_eq_some'.mp h
    exact ⟨rfl, rfl, rfl, rfl, stag, rfl⟩

/-- **C9.**  Every recorded radius entry is non-negative, and the radius of a
population in which all agents occupy the identical position is zero. -/
theorem claim_C9_radius_nonneg_zero :
    (∀ (ops : PopOps) (selection : List String) (sh : List SimpleHeuristic)
        (T : Nat) (pd : PopData) (i : Nat),
      (0:ℝ) ≤ (mhRun ops selection sh T pd).elim 0
        (fun r => r.st.historical_radius.getD i 0)) ∧
    ∀ (ps : List (List ℚ)) (v : List ℚ), (∀ p ∈ ps, p = v) → radius ps = 0 := by
  constructor
  · intro ops selection sh T pd i
    obtain ⟨r', hrun, _, _, _, _, _, _, _, hrad, _⟩ :=
      run_spec ops (process_heuristics sh).1 (process_heuristics sh).2 selection T pd
    unfold mhRun
    rw [hrun]
    exact getD_nonneg hrad i
  · intro ps v h
    exact radius_const_zero h

/-- Witness for `claim_C9_radius_nonneg_zero`: two agents at the identical
position `[1]` satisfy the hypothesis, and the claimed radius is zero. -/
theorem claim_C9_witness :
    (∀ p ∈ ([[1], [1]] : List (List ℚ)), p = [1]) ∧
      radius [[1], [1]] = 0 :=
  ⟨by decide, claim_C9_radius_nonneg_zero.2 [[1], [1]] [1] (by decide)⟩

/-- **C10.**  Under the run protocol — record once at iteration 0, then once
per iteration `k ≥ 1` — the record operation never fails with an
out-of-range access: the `iteration > 0` guard short-circuits the `[-2]`
access on the bootstrap call, and on every later call the bootstrap entry
plus the entry just appended keep the index in bounds (out-of-range accesses
are modelled as `none`, so a failing access would make the whole run
`none`). -/
theorem claim_C10_record_never_out_of_range (ops : PopOps)
    (selection : List String) (sh : List SimpleHeuristic) (T : Nat)
    (pd : PopData) :
    (mhRun ops selection sh T pd).isSome = true := by
  obtain ⟨r', hrun, _⟩ :=
    run_spec ops (process_heuristics sh).1 (process_heuristics sh).2 selection T pd
  unfold mhRun
  rw [hrun]
  rfl
